import Mathlib

/-!
Shallow embedding of the semantic-resolution core of grpc-core: the
descriptor data model, the binding synthesizer (`internal/descriptor/services.go`),
the path-template compiler interface, and the query-parameter computations of
the SDK emitter (`protoc-gen-sdk`).  Definitions mirror the Go source; parts of
the repository that are referenced but absent from the sources (the httprule
parser, the registry lookup surface, `IsWellKnownType`, `FieldPath.String`,
`CheckDuplicateAnnotation`) are modelled from the specification and say so in
their doc comments.
-/

namespace GrpcCore

/-- Kind of a protobuf field, as tested by the Go code
(`descriptorpb.FieldDescriptorProto_TYPE_MESSAGE` / `TYPE_GROUP` vs anything
else).  All non-aggregate kinds behave alike in the embedded code, so they are
collapsed into `scalar`. -/
inductive FieldType where
  | message
  | group
  | scalar
  deriving DecidableEq

/-- One field of a message: name, kind, aggregate type name (meaningful when
the kind is `message`/`group`), and the proto3 `optional` flag
(`GetProto3Optional`). -/
structure Field where
  name : String
  typ : FieldType
  typeName : String
  proto3Optional : Bool
  deriving DecidableEq

/-- A message type: its name and its ordered direct fields. -/
structure Message where
  name : String
  fields : List Field
  deriving DecidableEq

/-- One resolved component of a dotted field path (`FieldPathComponent` in the
descriptor package): the component name and the field descriptor it resolved
to. -/
structure FieldPathComponent where
  name : String
  target : Field
  deriving DecidableEq

/-- Modelled from the spec: `FieldPath.String` of the descriptor package is not
among the sources; per the spec a field path renders as its `.`-separated
component names. -/
def fieldPathString (fp : List FieldPathComponent) : String :=
  String.intercalate "." (fp.map FieldPathComponent.name)

/-- A request- or response-body extraction rule (`Body`); an empty `fieldPath`
denotes the whole message (the `*` rule). -/
structure Body where
  fieldPath : List FieldPathComponent
  deriving DecidableEq

/-- A path parameter (`Parameter`): the resolved field path and its terminal
field descriptor. -/
structure Parameter where
  fieldPath : List FieldPathComponent
  target : Field
  deriving DecidableEq

/-- Modelled from the spec: the compiled form produced by the path template
compiler (`internal/httprule`, not among the sources) — the ordered captured
field-path expressions, a canonical rendering of the template, and the
optional trailing verb literal. -/
structure PathTemplate where
  template : String
  fields : List String
  verb : String
  deriving DecidableEq

/-- Authorization metadata attached to a method (`coreapis/api` `Role`). -/
structure Role where
  resource : String
  scope : List String
  verb : String
  deriving DecidableEq

/-- The oneof `pattern` of a `google.api.HttpRule`: unset, one of the five
standard verbs with a path template, or a custom `{kind, path}` pair. -/
inductive HttpPattern where
  | unset
  | get (path : String)
  | put (path : String)
  | post (path : String)
  | delete (path : String)
  | patch (path : String)
  | custom (kind : String) (path : String)
  deriving DecidableEq

/-- One HTTP rule option set (`google.api.HttpRule`): the pattern oneof, the
`body` and `response_body` field-path strings, and nested
`additional_bindings`. -/
inductive HttpRule where
  | mk (pattern : HttpPattern) (body : String) (responseBody : String)
      (additionalBindings : List HttpRule)

def HttpRule.pattern : HttpRule → HttpPattern
  | .mk p _ _ _ => p

def HttpRule.body : HttpRule → String
  | .mk _ b _ _ => b

def HttpRule.responseBody : HttpRule → String
  | .mk _ _ rb _ => rb

def HttpRule.additionalBindings : HttpRule → List HttpRule
  | .mk _ _ _ ab => ab

/-- `GetGet()`: the get pattern string, `""` when the oneof holds another
case. -/
def HttpRule.getGet (o : HttpRule) : String :=
  match o.pattern with
  | .get p => p
  | _ => ""

/-- `GetPut()`. -/
def HttpRule.getPut (o : HttpRule) : String :=
  match o.pattern with
  | .put p => p
  | _ => ""

/-- `GetPost()`. -/
def HttpRule.getPost (o : HttpRule) : String :=
  match o.pattern with
  | .post p => p
  | _ => ""

/-- `GetDelete()`. -/
def HttpRule.getDelete (o : HttpRule) : String :=
  match o.pattern with
  | .delete p => p
  | _ => ""

/-- `GetPatch()`. -/
def HttpRule.getPatch (o : HttpRule) : String :=
  match o.pattern with
  | .patch p => p
  | _ => ""

/-- `GetCustom()`: the custom pattern, `none` when the oneof holds another
case (a nil pointer in Go). -/
def HttpRule.getCustom (o : HttpRule) : Option (String × String) :=
  match o.pattern with
  | .custom k p => some (k, p)
  | _ => none

/-- One resolved HTTP route (`Binding`).  `requestType` stands for the
`b.Method.RequestType` back-pointer of the Go struct (a `Binding` is always
constructed with its owning method's request type). -/
structure Binding where
  httpMethod : String
  pathTmpl : PathTemplate
  index : Nat
  pathParams : List Parameter
  body : Option Body
  responseBody : Option Body
  requestType : Message
  deriving DecidableEq

/-- The per-method inputs of binding synthesis: the owning service name, the
method name, the client-streaming flag, and the already-resolved request and
response message types (`newMethod` resolves them through `LookupMsg` before
any binding is built). -/
structure MethodInfo where
  serviceName : String
  name : String
  clientStreaming : Bool
  requestType : Message
  responseType : Message
  deriving DecidableEq

/-- A resolved method (`Method`).  `bindings` is a list of optional bindings,
mirroring the Go `[]*Binding` whose entries may be nil pointers. -/
structure Method where
  name : String
  requestType : Message
  responseType : Message
  clientStreaming : Bool
  role : Option Role
  bindings : List (Option Binding)
  deriving DecidableEq

/-- The registry state binding synthesis reads: the message table keyed by
(fully qualified) type name, and the configuration flags.  The message table
models the spec's resolve-message-by-name surface (`LookupMsg` is not among
the sources; the import-context argument it takes is dropped because the
spec's lookup is keyed by name). -/
structure Registry where
  msgs : List (String × Message)
  allowDeleteBody : Bool
  generateUnboundMethods : Bool
  deriving DecidableEq

/-- Modelled from the spec: `Registry.LookupMsg` — resolve a message type name
to its definition, or a not-found error. -/
def Registry.lookupMsg (r : Registry) (name : String) : Except String Message :=
  match r.msgs.find? (fun e => e.1 = name) with
  | some e => .ok e.2
  | none => .error ("no message found: " ++ name)

/-! ### Path template compiler (modelled from the spec)

The `internal/httprule` package is not among the sources.  The parser below is
modelled from the spec's grammar: a template is `/` followed by `/`-separated
segments and an optional `:verb` literal suffix; a segment is a literal, `*`,
`**` (final only), or a capture `{fieldpath[=pattern]}`; capture field paths
are collected in declaration order and duplicates are rejected; the compiled
form keeps a canonical rendering of the template (the template string itself)
plus the ordered captured field paths. -/

/-- One parsed template segment. -/
inductive Seg where
  | literal (cs : List Char)
  | wildcard
  | deepWildcard
  | capture (fieldPath : String)
  deriving DecidableEq

/-- Modelled from the spec: split the template body on `/` at brace depth 0,
rejecting unbalanced or nested braces. -/
def splitSegsAux : List Char → List Char → Nat → Except String (List (List Char))
  | [], cur, d =>
    if d = 0 then .ok [cur] else .error "unbalanced brace in path template"
  | c :: rest, cur, d =>
    if c = '/' ∧ d = 0 then
      match splitSegsAux rest [] 0 with
      | .ok segs => .ok (cur :: segs)
      | .error e => .error e
    else if c = '{' then
      if d = 0 then splitSegsAux rest (cur ++ [c]) 1
      else .error "nested brace in path template"
    else if c = '}' then
      if d = 1 then splitSegsAux rest (cur ++ [c]) 0
      else .error "unbalanced brace in path template"
    else splitSegsAux rest (cur ++ [c]) d

/-- Modelled from the spec: split a segment at the first `:` outside braces,
yielding the segment proper and the verb literal, when present. -/
def splitVerbAux : List Char → List Char → Nat → List Char × Option (List Char)
  | [], cur, _ => (cur, none)
  | c :: rest, cur, d =>
    if c = ':' ∧ d = 0 then (cur, some rest)
    else
      splitVerbAux rest (cur ++ [c])
        (if c = '{' then d + 1 else if c = '}' then d - 1 else d)

/-- Modelled from the spec: extract the optional trailing `:verb` literal from
the final segment. -/
def extractVerb (segs : List (List Char)) : List (List Char) × String :=
  match segs.getLast? with
  | none => (segs, "")
  | some last =>
    match splitVerbAux last [] 0 with
    | (_, none) => (segs, "")
    | (seg, some v) => (segs.dropLast ++ [seg], String.mk v)

/-- The field-path part of a capture body: the characters before the first
`=`. -/
def captureFieldPath : List Char → List Char
  | [] => []
  | c :: rest => if c = '=' then [] else c :: captureFieldPath rest

/-- Split a character list on `.` (the semantics of Go
`strings.Split(s, ".")`). -/
def splitDots : List Char → List (List Char)
  | [] => [[]]
  | c :: rest =>
    if c = '.' then [] :: splitDots rest
    else
      match splitDots rest with
      | [] => [[c]]
      | g :: gs => (c :: g) :: gs

/-- Modelled from the spec: parse the inside of a capture group
`{fieldpath[=pattern]}` (the opening brace already consumed). -/
def parseCapture (inner : List Char) : Except String Seg :=
  if inner.getLast? = some '}' then
    let fp := captureFieldPath inner.dropLast
    if fp = [] then .error "empty field path in capture group"
    else if (splitDots fp).any (· = []) then
      .error "empty identifier in capture field path"
    else .ok (.capture (String.mk fp))
  else .error "unbalanced brace in capture group"

/-- Modelled from the spec: classify one segment. -/
def parseSeg (cs : List Char) : Except String Seg :=
  match cs with
  | [] => .error "empty segment in path template"
  | c :: rest =>
    if c :: rest = ['*', '*'] then .ok .deepWildcard
    else if c :: rest = ['*'] then .ok .wildcard
    else if c = '{' then parseCapture rest
    else if (c :: rest).any (fun x => x = '{' || x = '}') then
      .error "brace inside literal segment"
    else .ok (.literal (c :: rest))

/-- Modelled from the spec: parse every segment. -/
def parseSegs : List (List Char) → Except String (List Seg)
  | [] => .ok []
  | s :: rest =>
    match parseSeg s with
    | .error e => .error e
    | .ok seg =>
      match parseSegs rest with
      | .error e => .error e
      | .ok segs => .ok (seg :: segs)

/-- Modelled from the spec: `**` is permitted only as the final segment. -/
def deepWildLast : List Seg → Bool
  | [] => true
  | [_] => true
  | .deepWildcard :: _ :: _ => false
  | _ :: rest => deepWildLast rest

/-- The captured field paths of a parsed template, in declaration order. -/
def capturedPaths (segs : List Seg) : List String :=
  segs.filterMap fun s =>
    match s with
    | .capture fp => some fp
    | _ => none

/-- Modelled from the spec: `httprule.Parse` followed by `.Compile()` — parse
a path template and return its compiled form (canonical template string,
ordered captured field paths, trailing verb), or a syntax error naming the
offending template. -/
def parseTemplate (s : String) : Except String PathTemplate :=
  match s.data with
  | [] => .error ("no leading / found in path template: " ++ s)
  | c :: rest =>
    if c = '/' then
      match splitSegsAux rest [] 0 with
      | .error e => .error (e ++ ": " ++ s)
      | .ok rawSegs =>
        match extractVerb rawSegs with
        | (segStrs, verb) =>
          match parseSegs segStrs with
          | .error e => .error (e ++ ": " ++ s)
          | .ok segs =>
            if deepWildLast segs then
              if (capturedPaths segs).Nodup then .ok ⟨s, capturedPaths segs, verb⟩
              else .error ("duplicate field path in path template: " ++ s)
            else .error ("deep wildcard must be the last segment: " ++ s)
    else .error ("no leading / found in path template: " ++ s)

/-! ### Kebab-case validation and role extraction (`services.go`) -/

/-- Character class `[a-z]`. -/
def isLowerAlpha (c : Char) : Bool := 'a' ≤ c && c ≤ 'z'

/-- Character class `[a-z0-9]`. -/
def isLowerDigit (c : Char) : Bool := isLowerAlpha c || ('0' ≤ c && c ≤ '9')

/-- The automaton for the tail `[a-z0-9]*(-[a-z0-9]+)*` of the kebab-case
regular expression: after a `-` at least one `[a-z0-9]` must follow. -/
def kebabTail : List Char → Bool
  | [] => true
  | c :: rest =>
    if c = '-' then
      match rest with
      | [] => false
      | c2 :: rest2 => isLowerDigit c2 && kebabTail rest2
    else isLowerDigit c && kebabTail rest

/-- `kebabCaseRegex.MatchString`: whether a string matches
`^[a-z][a-z0-9]*(-[a-z0-9]+)*$`. -/
def kebabCaseMatch (s : String) : Bool :=
  match s.data with
  | [] => false
  | c :: rest => isLowerAlpha c && kebabTail rest

/-- `validateKebabCase`: empty values are allowed; otherwise the value must
match the kebab-case pattern. -/
def validateKebabCase (field value : String) : Except String Unit :=
  if value = "" then .ok ()
  else if kebabCaseMatch value then .ok ()
  else
    .error ("field '" ++ field ++ "' with value '" ++ value ++
      "' is not in kebab-case format")

/-- The scope-validation loop of `extractRoleOptions`:
`for i, scope := range role.Scope`, wrapping the first violation with the
method name. -/
def validateScopes (methName : String) : List String → Nat → Except String Unit
  | [], _ => .ok ()
  | s :: rest, i =>
    match validateKebabCase ("scope[" ++ toString i ++ "]") s with
    | .error e => .error ("invalid role in method " ++ methName ++ ": " ++ e)
    | .ok _ => validateScopes methName rest (i + 1)

/-- `extractRoleOptions`: absent annotation yields no role and no error;
otherwise `resource`, `verb` and each scope entry are validated in that
order, the first violation wrapped with the owning method's name.  (The
protobuf extension decoding of the Go code is modelled by the `Option Role`
argument.) -/
def extractRoleOptions (methName : String) (role : Option Role) :
    Except String (Option Role) :=
  match role with
  | none => .ok none
  | some role =>
    match validateKebabCase "resource" role.resource with
    | .error e => .error ("invalid role in method " ++ methName ++ ": " ++ e)
    | .ok _ =>
      match validateKebabCase "verb" role.verb with
      | .error e => .error ("invalid role in method " ++ methName ++ ": " ++ e)
      | .ok _ =>
        match validateScopes methName role.scope 0 with
        | .error e => .error e
        | .ok _ => .ok (some role)

/-! ### Field path resolution (`services.go`) -/

/-- Go `strings.Split(path, ".")` on a string. -/
def splitPath (s : String) : List String :=
  (splitDots s.data).map String.mk

/-- `lookupField`: the first field of `msg` named `name`, or `none`. -/
def lookupField (msg : Message) (name : String) : Option Field :=
  msg.fields.find? (fun f => f.name = name)

/-- The loop body of `resolveFieldPath`: `root` and `path` are fixed for error
reporting, `prev` is the previously resolved field (`result[i-1].Target`, so
`none` exactly at the first component), `msg` the message currently searched,
and `acc` the components resolved so far. -/
def resolveFieldPathLoop (r : Registry) (root : Message) (path : String)
    (isPathParam : Bool) :
    Message → Option Field → List String → List FieldPathComponent →
    Except String (List FieldPathComponent)
  | _, _, [], acc => .ok acc
  | msg, prev, c :: rest, acc =>
    let stepMsg : Except String Message :=
      match prev with
      | none => .ok msg
      | some f =>
        match f.typ with
        | .message => r.lookupMsg f.typeName
        | .group => r.lookupMsg f.typeName
        | .scalar =>
          .error ("not an aggregate type: " ++ f.name ++ " in " ++ path)
    match stepMsg with
    | .error e => .error e
    | .ok msg =>
      match lookupField msg c with
      | none =>
        .error ("no field \"" ++ path ++ "\" found in " ++ root.name)
      | some f =>
        if isPathParam = true ∧ f.proto3Optional = true then
          .error ("optional field not allowed in field path: " ++ f.name ++
            " in " ++ path)
        else
          resolveFieldPathLoop r root path isPathParam msg (some f) rest
            (acc ++ [⟨c, f⟩])

/-- `resolveFieldPath`: resolve a dotted field path into the ordered chain of
field descriptors, starting from `msg`; the empty path yields the empty
chain. -/
def resolveFieldPath (r : Registry) (msg : Message) (path : String)
    (isPathParam : Bool) : Except String (List FieldPathComponent) :=
  if path = "" then .ok []
  else resolveFieldPathLoop r msg path isPathParam msg none (splitPath path) []

/-! ### Parameter, body and response construction (`services.go`) -/

/-- Modelled from the spec: `IsWellKnownType` is not among the sources; per
the spec it recognizes a small fixed set of message types treated as scalars
for path-parameter purposes (the protobuf wrapper types and similar). -/
def isWellKnownType (typeName : String) : Bool :=
  typeName ∈ [".google.protobuf.Timestamp", ".google.protobuf.Duration",
    ".google.protobuf.StringValue", ".google.protobuf.BytesValue",
    ".google.protobuf.Int32Value", ".google.protobuf.UInt32Value",
    ".google.protobuf.Int64Value", ".google.protobuf.UInt64Value",
    ".google.protobuf.FloatValue", ".google.protobuf.DoubleValue",
    ".google.protobuf.BoolValue"]

/-- The `switch target.GetType()` block of `newParam`: an aggregate
(message/group) terminal field must be a recognized well-known type. -/
def paramTypeCheck (m : MethodInfo) (path : String) (target : Field) :
    Except String Unit :=
  match target.typ with
  | .message =>
    if isWellKnownType target.typeName = true then .ok ()
    else
      .error (m.serviceName ++ "." ++ m.name ++ ": " ++ path ++
        " is a protobuf message type. Protobuf message types cannot" ++
        " be used as path parameters, use a scalar value type (such" ++
        " as string) instead")
  | .group =>
    if isWellKnownType target.typeName = true then .ok ()
    else
      .error (m.serviceName ++ "." ++ m.name ++ ": " ++ path ++
        " is a protobuf message type. Protobuf message types cannot" ++
        " be used as path parameters, use a scalar value type (such" ++
        " as string) instead")
  | .scalar => .ok ()

/-- `newParam`: resolve a capture-group field path against the request type
(path-parameter mode) and reject an aggregate terminal field that is not a
well-known type. -/
def newParam (r : Registry) (m : MethodInfo) (path : String) :
    Except String Parameter :=
  match resolveFieldPath r m.requestType path true with
  | .error e => .error e
  | .ok fields =>
    match fields.getLast? with
    | none => .error ("invalid field access list for " ++ path)
    | some last =>
      match paramTypeCheck m path last.target with
      | .error e => .error e
      | .ok _ => .ok ⟨fields, last.target⟩

/-- `newBody`: `""` ⇒ no body, `"*"` ⇒ whole-message body, otherwise resolve
the dotted path against the request type (non-path-parameter mode). -/
def newBody (r : Registry) (m : MethodInfo) (path : String) :
    Except String (Option Body) :=
  if path = "" then .ok none
  else if path = "*" then .ok (some ⟨[]⟩)
  else
    match resolveFieldPath r m.requestType path false with
    | .error e => .error e
    | .ok fields => .ok (some ⟨fields⟩)

/-- `newResponse`: `""` or `"*"` ⇒ no explicit response body, otherwise
resolve the dotted path against the response type. -/
def newResponse (r : Registry) (m : MethodInfo) (path : String) :
    Except String (Option Body) :=
  if path = "" then .ok none
  else if path = "*" then .ok none
  else
    match resolveFieldPath r m.responseType path false with
    | .error e => .error e
    | .ok fields => .ok (some ⟨fields⟩)

/-! ### Binding synthesis (`newMethod` and its closures in `services.go`) -/

/-- The tail of `newBinding` shared by every selected pattern: parse and
compile the path template, reject path parameters under client streaming,
resolve each captured field path into a `Parameter`, resolve the body and
response-body rules, and assemble the `Binding`. -/
def bindCore (r : Registry) (m : MethodInfo) (httpMethod pathTemplate : String)
    (opts : HttpRule) (idx : Nat) : Except String (Option Binding) :=
  match parseTemplate pathTemplate with
  | .error e => .error e
  | .ok tmpl =>
    if m.clientStreaming = true ∧ tmpl.fields.length > 0 then
      .error "cannot use path parameter in client streaming"
    else
      match tmpl.fields.mapM (fun f => newParam r m f) with
      | .error e => .error e
      | .ok params =>
        match newBody r m opts.body with
        | .error e => .error e
        | .ok body =>
          match newResponse r m opts.responseBody with
          | .error e => .error e
          | .ok responseBody =>
            .ok (some
              { httpMethod := httpMethod
                pathTmpl := tmpl
                index := idx
                pathParams := params
                body := body
                responseBody := responseBody
                requestType := m.requestType })

/-- The `newBinding` closure: select the single pattern case in the Go
`switch` order (GET, PUT, POST, DELETE, PATCH, custom), apply the
GET-body and DELETE-body constraint checks of the selected case, and fall to
the default — no binding, no error — when no pattern is set. -/
def newBinding (r : Registry) (m : MethodInfo) (opts : HttpRule) (idx : Nat) :
    Except String (Option Binding) :=
  if opts.getGet ≠ "" then
    if opts.body ≠ "" then
      .error ("must not set request body when http method is GET: " ++ m.name)
    else bindCore r m "GET" opts.getGet opts idx
  else if opts.getPut ≠ "" then bindCore r m "PUT" opts.getPut opts idx
  else if opts.getPost ≠ "" then bindCore r m "POST" opts.getPost opts idx
  else if opts.getDelete ≠ "" then
    if opts.body ≠ "" ∧ r.allowDeleteBody = false then
      .error ("must not set request body when http method is DELETE except" ++
        " allow_delete_body option is true: " ++ m.name)
    else bindCore r m "DELETE" opts.getDelete opts idx
  else if opts.getPatch ≠ "" then bindCore r m "PATCH" opts.getPatch opts idx
  else
    match opts.getCustom with
    | some (kind, path) => bindCore r m kind path opts idx
    | none => .ok none

/-- The `additional_bindings` loop of the `applyOpts` closure: nested
additional bindings are rejected, and the binding built for each entry is
appended to the accumulated list whether or not it is nil (the Go code has no
nil check on this append). -/
def applyAdditional (r : Registry) (m : MethodInfo) :
    List HttpRule → List (Option Binding) →
    Except String (List (Option Binding))
  | [], acc => .ok acc
  | a :: rest, acc =>
    if a.additionalBindings.length > 0 then
      .error ("additional_binding in additional_binding not allowed: " ++
        m.serviceName ++ "." ++ m.name)
    else
      match newBinding r m a acc.length with
      | .error e => .error e
      | .ok b => applyAdditional r m rest (acc ++ [b])

/-- The `applyOpts` closure: build the primary binding (appended only when
non-nil), then process the rule's `additional_bindings`. -/
def applyOptsRule (r : Registry) (m : MethodInfo) (opts : HttpRule)
    (acc : List (Option Binding)) : Except String (List (Option Binding)) :=
  match newBinding r m opts acc.length with
  | .error e => .error e
  | .ok b =>
    let acc := match b with
      | some b => acc ++ [some b]
      | none => acc
    applyAdditional r m opts.additionalBindings acc

/-- The `for _, opts := range optsList` loop of `newMethod`. -/
def applyOptsList (r : Registry) (m : MethodInfo) :
    List HttpRule → List (Option Binding) →
    Except String (List (Option Binding))
  | [], acc => .ok acc
  | opts :: rest, acc =>
    match applyOptsRule r m opts acc with
    | .error e => .error e
    | .ok acc => applyOptsList r m rest acc

/-- `newMethod` (after its request/response type lookups, which `MethodInfo`
carries already resolved): attach the role and the bindings produced by
applying every rule option set in order. -/
def newMethod (r : Registry) (m : MethodInfo) (optsList : List HttpRule)
    (role : Option Role) : Except String Method :=
  match applyOptsList r m optsList [] with
  | .error e => .error e
  | .ok bindings =>
    .ok { name := m.name
          requestType := m.requestType
          responseType := m.responseType
          clientStreaming := m.clientStreaming
          role := role
          bindings := bindings }

/-- Go `strings.TrimPrefix(s, ".")`. -/
def trimLeadingDot (s : String) : String :=
  match s.data with
  | '.' :: rest => String.mk rest
  | _ => s

/-- `defaultAPIOptions`: the synthesized rule for an unbound method — verb
POST, path `/<service-fqn>/<method>`, body `*`. -/
def defaultAPIOptions (svcFqsn methName : String) : HttpRule :=
  .mk (.post ("/" ++ trimLeadingDot svcFqsn ++ "/" ++ methName)) "*" "" []

/-- The option-set assembly of `loadServices` for one method: external
overrides first, then the inline rule; when both are absent and
default-generation is enabled, the synthesized default rule. -/
def methodOptsList (r : Registry) (svcFqsn : String) (m : MethodInfo)
    (external : List HttpRule) (inline : Option HttpRule) : List HttpRule :=
  let optsList := external ++ (match inline with
    | some o => [o]
    | none => [])
  if optsList.length = 0 then
    if r.generateUnboundMethods then [defaultAPIOptions svcFqsn m.name]
    else []
  else optsList

/-! ### Query-parameter computation (the `gensdk` emitter) -/

/-- Insertion into the Go `map[string]bool` used as a string set (a repeated
key is stored once). -/
def mapInsert (m : List String) (k : String) : List String :=
  if k ∈ m then m else m ++ [k]

/-- Go `delete(fields, k)` on that map. -/
def mapDelete (m : List String) (k : String) : List String :=
  m.filter (fun x => x ≠ k)

/-- Whether the Go early return
`b.Body != nil && len(b.Body.FieldPath) == 0` fires: the binding's body is
the whole request message. -/
def bodyIsWholeMessage (b : Binding) : Bool :=
  match b.body with
  | some bd => bd.fieldPath.length = 0
  | none => false

/-- The `fields` map after the block repeated verbatim in `HasQueryParam`,
`hasQueryParams` and `getQueryParams`: every direct field name of
`b.Method.RequestType`, minus the body's field-path string (when a body is
present), minus every path parameter's field-path string. -/
def remainingFields (b : Binding) : List String :=
  let fields := b.requestType.fields.foldl (fun m f => mapInsert m f.name) []
  let fields := match b.body with
    | some bd => mapDelete fields (fieldPathString bd.fieldPath)
    | none => fields
  b.pathParams.foldl (fun m p => mapDelete m (fieldPathString p.fieldPath))
    fields

/-- `gensdk.HasQueryParam`: whether the binding needs query-string
parameters (conservatively). -/
def HasQueryParam (b : Binding) : Bool :=
  if bodyIsWholeMessage b then false
  else (remainingFields b).length > 0

/-- `hasQueryParams` of the `gensdk` template helpers: like `HasQueryParam`
on the method's first binding, but answered by scanning the request fields in
declaration order.  (A nil first binding would be a runtime fault in the Go
code; it is modelled as `false` and lies outside every claim's premise.) -/
def hasQueryParams (m : Method) : Bool :=
  match m.bindings with
  | [] => false
  | b? :: _ =>
    match b? with
    | none => false
    | some b =>
      if bodyIsWholeMessage b then false
      else
        let fields := remainingFields b
        b.requestType.fields.any (fun f => f.name ∈ fields)

/-- `getQueryParams` of the `gensdk` template helpers: the query-parameter
names of the method's first binding, in request-field declaration order.
(A nil first binding would be a runtime fault in the Go code; it is modelled
as the empty list and lies outside every claim's premise.) -/
def getQueryParams (m : Method) : List String :=
  match m.bindings with
  | [] => []
  | b? :: _ =>
    match b? with
    | none => []
    | some b =>
      if bodyIsWholeMessage b then []
      else
        let fields := remainingFields b
        (b.requestType.fields.map Field.name).filter (fun n => n ∈ fields)

/-! ### Duplicate-route detection (modelled from the spec) -/

/-- One registered route: owning service, verb, compiled template string, and
the owning method (kept for the duplicate-route error message). -/
structure RouteEntry where
  service : String
  verb : String
  template : String
  methodName : String
  deriving DecidableEq

/-- Modelled from the spec: `Registry.CheckDuplicateAnnotation` is not among
the sources.  Per the spec, the (verb, compiled-template) pair is checked
against all bindings already registered for the owning service; a repeat is
rejected as a duplicate-route error naming both colliding methods, and a new
pair is recorded. -/
def checkDuplicateAnnotation (seen : List RouteEntry)
    (verb tmpl svcName methName : String) :
    Except String (List RouteEntry) :=
  match seen.find? (fun e =>
      e.service = svcName && e.verb = verb && e.template = tmpl) with
  | some e =>
    .error ("duplicate annotation: method " ++ e.methodName ++ " and method " ++
      methName ++ " both map to " ++ verb ++ " " ++ tmpl ++ " in service " ++
      svcName)
  | none => .ok (seen ++ [⟨svcName, verb, tmpl, methName⟩])

/-! ### Helper predicates used by the theorems -/

/-- No pattern field of the rule is set: every verb accessor returns `""` and
the custom pattern is absent (nil). -/
def patternUnset (o : HttpRule) : Prop :=
  o.getGet = "" ∧ o.getPut = "" ∧ o.getPost = "" ∧ o.getDelete = "" ∧
  o.getPatch = "" ∧ o.getCustom = none

instance (o : HttpRule) : Decidable (patternUnset o) := by
  unfold patternUnset; infer_instance

/-- A role field value passes validation: empty, or kebab-case. -/
def roleValueOk (s : String) : Prop := s = "" ∨ kebabCaseMatch s = true

instance (s : String) : Decidable (roleValueOk s) := by
  unfold roleValueOk; infer_instance

/-! ### Theorems -/

theorem find?_append_of_none {α : Type} (l1 l2 : List α) (p : α → Bool)
    (h : l1.find? p = none) : (l1 ++ l2).find? p = l2.find? p := by
  induction l1 with
  | nil => rfl
  | cons a l ih =>
    cases hp : p a with
    | true => simp [List.find?, hp] at h
    | false =>
      simp only [List.cons_append, List.find?, hp] at h ⊢
      exact ih h

/-- C4: for every service, registering two bindings that share the same HTTP
verb and the same compiled path-template string fails on the second
registration with a duplicate-route error naming both colliding methods; the
first registration succeeds. -/
theorem duplicate_route_detection (seen : List RouteEntry)
    (verb tmpl svc m1 m2 : String)
    (h : seen.find? (fun e =>
      e.service = svc && e.verb = verb && e.template = tmpl) = none) :
    checkDuplicateAnnotation seen verb tmpl svc m1 =
      .ok (seen ++ [⟨svc, verb, tmpl, m1⟩]) ∧
    checkDuplicateAnnotation (seen ++ [⟨svc, verb, tmpl, m1⟩]) verb tmpl svc m2 =
      .error ("duplicate annotation: method " ++ m1 ++ " and method " ++ m2 ++
        " both map to " ++ verb ++ " " ++ tmpl ++ " in service " ++ svc) := by
  constructor
  · unfold checkDuplicateAnnotation
    rw [h]
  · unfold checkDuplicateAnnotation
    rw [find?_append_of_none _ _ _ h]
    simp [List.find?]

theorem duplicate_route_detection_witness :
    checkDuplicateAnnotation [] "GET" "/v1/things" "Svc" "ListThings" =
      .ok [⟨"Svc", "GET", "/v1/things", "ListThings"⟩] ∧
    checkDuplicateAnnotation [⟨"Svc", "GET", "/v1/things", "ListThings"⟩]
        "GET" "/v1/things" "Svc" "GetThings" =
      .error ("duplicate annotation: method ListThings and method GetThings" ++
        " both map to GET /v1/things in service Svc") := by
  have h := duplicate_route_detection [] "GET" "/v1/things" "Svc"
    "ListThings" "GetThings" rfl
  exact ⟨h.1, h.2⟩

/-- C7: a GET rule is rejected on body grounds exactly when its body is a
non-empty string; with an empty body, binding construction proceeds with the
normal pipeline (it is not rejected on body grounds). -/
theorem get_body_rejection (r : Registry) (m : MethodInfo) (opts : HttpRule)
    (idx : Nat) (p : String) (hp : opts.pattern = .get p) (hne : p ≠ "") :
    (opts.body ≠ "" →
      newBinding r m opts idx =
        .error ("must not set request body when http method is GET: " ++
          m.name)) ∧
    (opts.body = "" →
      newBinding r m opts idx = bindCore r m "GET" p opts idx) := by
  have hg : opts.getGet = p := by simp [HttpRule.getGet, hp]
  constructor
  · intro hb
    unfold newBinding
    rw [hg, if_pos hne, if_pos hb]
  · intro hb
    unfold newBinding
    rw [hg, if_pos hne, if_neg (by simp [hb])]

theorem get_body_rejection_witness :
    newBinding ⟨[], false, false⟩
        ⟨"Svc", "GetThing", false, ⟨"Req", []⟩, ⟨"Resp", []⟩⟩
        (.mk (.get "/v1/things") "*" "" []) 0 =
      .error "must not set request body when http method is GET: GetThing" ∧
    newBinding ⟨[], false, false⟩
        ⟨"Svc", "GetThing", false, ⟨"Req", []⟩, ⟨"Resp", []⟩⟩
        (.mk (.get "/v1/things") "" "" []) 0 =
      bindCore ⟨[], false, false⟩
        ⟨"Svc", "GetThing", false, ⟨"Req", []⟩, ⟨"Resp", []⟩⟩
        "GET" "/v1/things" (.mk (.get "/v1/things") "" "" []) 0 := by
  constructor
  · exact (get_body_rejection ⟨[], false, false⟩
      ⟨"Svc", "GetThing", false, ⟨"Req", []⟩, ⟨"Resp", []⟩⟩
      (.mk (.get "/v1/things") "*" "" []) 0 "/v1/things" rfl (by decide)).1
      (by decide)
  · exact (get_body_rejection ⟨[], false, false⟩
      ⟨"Svc", "GetThing", false, ⟨"Req", []⟩, ⟨"Resp", []⟩⟩
      (.mk (.get "/v1/things") "" "" []) 0 "/v1/things" rfl (by decide)).2 rfl

/-- C8: a DELETE rule with a non-empty body is rejected when the
allow-delete-body flag is disabled, and is not rejected on body grounds when
the flag is enabled (construction proceeds with the normal pipeline). -/
theorem delete_body_rejection (r : Registry) (m : MethodInfo)
    (opts : HttpRule) (idx : Nat) (p : String)
    (hp : opts.pattern = .delete p) (hne : p ≠ "") (hb : opts.body ≠ "") :
    (r.allowDeleteBody = false →
      newBinding r m opts idx =
        .error ("must not set request body when http method is DELETE except" ++
          " allow_delete_body option is true: " ++ m.name)) ∧
    (r.allowDeleteBody = true →
      newBinding r m opts idx = bindCore r m "DELETE" p opts idx) := by
  have hg : opts.getGet = "" := by simp [HttpRule.getGet, hp]
  have hput : opts.getPut = "" := by simp [HttpRule.getPut, hp]
  have hpost : opts.getPost = "" := by simp [HttpRule.getPost, hp]
  have hd : opts.getDelete = p := by simp [HttpRule.getDelete, hp]
  constructor
  · intro hflag
    unfold newBinding
    rw [hg, hput, hpost, hd]
    rw [if_neg (by simp), if_neg (by simp), if_neg (by simp), if_pos hne,
      if_pos ⟨hb, hflag⟩]
  · intro hflag
    unfold newBinding
    rw [hg, hput, hpost, hd]
    rw [if_neg (by simp), if_neg (by simp), if_neg (by simp), if_pos hne,
      if_neg (by simp [hflag])]

theorem delete_body_rejection_witness :
    newBinding ⟨[], false, false⟩
        ⟨"Svc", "DelThing", false, ⟨"Req", []⟩, ⟨"Resp", []⟩⟩
        (.mk (.delete "/v1/things") "*" "" []) 0 =
      .error ("must not set request body when http method is DELETE except" ++
        " allow_delete_body option is true: DelThing") ∧
    newBinding ⟨[], true, false⟩
        ⟨"Svc", "DelThing", false, ⟨"Req", []⟩, ⟨"Resp", []⟩⟩
        (.mk (.delete "/v1/things") "*" "" []) 0 =
      bindCore ⟨[], true, false⟩
        ⟨"Svc", "DelThing", false, ⟨"Req", []⟩, ⟨"Resp", []⟩⟩
        "DELETE" "/v1/things" (.mk (.delete "/v1/things") "*" "" []) 0 := by
  constructor
  · exact (delete_body_rejection ⟨[], false, false⟩
      ⟨"Svc", "DelThing", false, ⟨"Req", []⟩, ⟨"Resp", []⟩⟩
      (.mk (.delete "/v1/things") "*" "" []) 0 "/v1/things" rfl (by decide)
      (by decide)).1 rfl
  · exact (delete_body_rejection ⟨[], true, false⟩
      ⟨"Svc", "DelThing", false, ⟨"Req", []⟩, ⟨"Resp", []⟩⟩
      (.mk (.delete "/v1/things") "*" "" []) 0 "/v1/things" rfl (by decide)
      (by decide)).2 rfl

theorem newBinding_unset (r : Registry) (m : MethodInfo) (opts : HttpRule)
    (idx : Nat) (h : patternUnset opts) : newBinding r m opts idx = .ok none := by
  obtain ⟨h1, h2, h3, h4, h5, h6⟩ := h
  unfold newBinding
  rw [h1, h2, h3, h4, h5, h6]
  simp

/-- C3 (amended): a primary rule with no pattern set yields no binding and no
error, and `applyOpts` appends nothing for it; an `additional_bindings` entry
with no pattern set yields no error either, but the loop appends a nil entry
to the method's binding list (the Go code has no nil check on that append). -/
theorem patternless_rule_spec :
    (∀ (r : Registry) (m : MethodInfo) (opts : HttpRule) (idx : Nat),
      patternUnset opts → newBinding r m opts idx = .ok none) ∧
    (∀ (r : Registry) (m : MethodInfo) (opts : HttpRule)
      (acc : List (Option Binding)),
      patternUnset opts → opts.additionalBindings = [] →
      applyOptsRule r m opts acc = .ok acc) ∧
    (∀ (r : Registry) (m : MethodInfo) (a : HttpRule) (rest : List HttpRule)
      (acc : List (Option Binding)),
      patternUnset a → a.additionalBindings = [] →
      applyAdditional r m (a :: rest) acc =
        applyAdditional r m rest (acc ++ [none])) := by
  refine ⟨fun r m opts idx h => newBinding_unset r m opts idx h, ?_, ?_⟩
  · intro r m opts acc h hab
    unfold applyOptsRule
    rw [newBinding_unset r m opts acc.length h, hab]
    rfl
  · intro r m a rest acc h hab
    have hb := newBinding_unset r m a acc.length h
    simp only [applyAdditional, hab, hb]
    simp

theorem patternless_rule_spec_witness :
    newBinding ⟨[], false, false⟩
        ⟨"Svc", "M", false, ⟨"Req", []⟩, ⟨"Resp", []⟩⟩ (.mk .unset "" "" []) 0 =
      .ok none ∧
    applyOptsRule ⟨[], false, false⟩
        ⟨"Svc", "M", false, ⟨"Req", []⟩, ⟨"Resp", []⟩⟩ (.mk .unset "" "" []) [] =
      .ok [] ∧
    applyAdditional ⟨[], false, false⟩
        ⟨"Svc", "M", false, ⟨"Req", []⟩, ⟨"Resp", []⟩⟩ [.mk .unset "" "" []] [] =
      applyAdditional ⟨[], false, false⟩
        ⟨"Svc", "M", false, ⟨"Req", []⟩, ⟨"Resp", []⟩⟩ [] [none] := by
  refine ⟨patternless_rule_spec.1 _ _ _ 0 (by decide),
    patternless_rule_spec.2.1 _ _ _ [] (by decide) rfl, ?_⟩
  have h := patternless_rule_spec.2.2 ⟨[], false, false⟩
    ⟨"Svc", "M", false, ⟨"Req", []⟩, ⟨"Resp", []⟩⟩ (.mk .unset "" "" []) [] []
    (by decide) rfl
  simpa using h

/-- C3 (counterexample): a rule whose `additional_bindings` entry sets no
pattern does get an entry appended — a nil binding — so "nothing is appended"
fails for additional bindings: here the primary POST rule contributes one
non-nil binding and the patternless additional entry contributes a nil one. -/
theorem patternless_additional_counterexample :
    (applyOptsRule ⟨[], false, false⟩
      ⟨"Svc", "M", false, ⟨"Req", []⟩, ⟨"Resp", []⟩⟩
      (.mk (.post "/x") "" "" [.mk .unset "" "" []]) []).map
        (fun l => l.map Option.isSome) = .ok [true, false] := by
  rfl

theorem validateKebabCase_ok (f v : String) (h : roleValueOk v) :
    validateKebabCase f v = .ok () := by
  unfold validateKebabCase
  rcases h with h | h
  · rw [if_pos h]
  · by_cases he : v = ""
    · rw [if_pos he]
    · rw [if_neg he, if_pos h]

theorem validateKebabCase_err (f v : String) (h : ¬ roleValueOk v) :
    validateKebabCase f v =
      .error ("field '" ++ f ++ "' with value '" ++ v ++
        "' is not in kebab-case format") := by
  unfold roleValueOk at h
  push_neg at h
  unfold validateKebabCase
  rw [if_neg h.1, if_neg (by simp [h.2])]

theorem validateScopes_ok (mn : String) (l : List String) (i : Nat)
    (h : ∀ s ∈ l, roleValueOk s) : validateScopes mn l i = .ok () := by
  induction l generalizing i with
  | nil => rfl
  | cons s rest ih =>
    have h1 := validateKebabCase_ok ("scope[" ++ toString i ++ "]") s
      (h s (by simp))
    simp only [validateScopes, h1]
    exact ih (i + 1) (fun x hx => h x (by simp [hx]))

theorem validateScopes_err (mn : String) (pre : List String) (bad : String)
    (post : List String) (i : Nat)
    (hpre : ∀ s ∈ pre, roleValueOk s) (hbad : ¬ roleValueOk bad) :
    validateScopes mn (pre ++ bad :: post) i =
      .error ("invalid role in method " ++ mn ++ ": " ++
        ("field '" ++ ("scope[" ++ toString (i + pre.length) ++ "]") ++
          "' with value '" ++ bad ++ "' is not in kebab-case format")) := by
  induction pre generalizing i with
  | nil =>
    have h1 := validateKebabCase_err ("scope[" ++ toString i ++ "]") bad hbad
    simp only [List.nil_append, List.length_nil, Nat.add_zero,
      validateScopes, h1]
  | cons s rest ih =>
    have h1 := validateKebabCase_ok ("scope[" ++ toString i ++ "]") s
      (hpre s (by simp))
    simp only [List.cons_append, validateScopes, h1, List.append_eq]
    rw [ih (i + 1) (fun x hx => hpre x (by simp [hx]))]
    have harith : i + 1 + rest.length = i + (s :: rest).length := by
      simp only [List.length_cons]
      omega
    rw [harith]

/-- C9: a method with no role annotation yields no role and no error; a
present annotation is accepted exactly when `resource`, `verb` and every
scope entry are each empty or kebab-case, and the first violating value
produces an error naming the offending field (`resource`, `verb`, or
`scope[i]`), the offending value, and the owning method. -/
theorem extractRoleOptions_spec :
    (∀ mn : String, extractRoleOptions mn none = .ok none) ∧
    (∀ (mn : String) (role : Role),
      roleValueOk role.resource → roleValueOk role.verb →
      (∀ s ∈ role.scope, roleValueOk s) →
      extractRoleOptions mn (some role) = .ok (some role)) ∧
    (∀ (mn : String) (role : Role), ¬ roleValueOk role.resource →
      extractRoleOptions mn (some role) =
        .error ("invalid role in method " ++ mn ++ ": " ++
          ("field '" ++ "resource" ++ "' with value '" ++ role.resource ++
            "' is not in kebab-case format"))) ∧
    (∀ (mn : String) (role : Role),
      roleValueOk role.resource → ¬ roleValueOk role.verb →
      extractRoleOptions mn (some role) =
        .error ("invalid role in method " ++ mn ++ ": " ++
          ("field '" ++ "verb" ++ "' with value '" ++ role.verb ++
            "' is not in kebab-case format"))) ∧
    (∀ (mn : String) (role : Role) (pre : List String) (bad : String)
      (post : List String),
      roleValueOk role.resource → roleValueOk role.verb →
      role.scope = pre ++ bad :: post →
      (∀ s ∈ pre, roleValueOk s) → ¬ roleValueOk bad →
      extractRoleOptions mn (some role) =
        .error ("invalid role in method " ++ mn ++ ": " ++
          ("field '" ++ ("scope[" ++ toString pre.length ++ "]") ++
            "' with value '" ++ bad ++
            "' is not in kebab-case format"))) := by
  refine ⟨fun mn => rfl, ?_, ?_, ?_, ?_⟩
  · intro mn role h1 h2 h3
    have e1 := validateKebabCase_ok "resource" role.resource h1
    have e2 := validateKebabCase_ok "verb" role.verb h2
    have e3 := validateScopes_ok mn role.scope 0 h3
    simp only [extractRoleOptions, e1, e2, e3]
  · intro mn role h1
    have e1 := validateKebabCase_err "resource" role.resource h1
    simp only [extractRoleOptions, e1]
  · intro mn role h1 h2
    have e1 := validateKebabCase_ok "resource" role.resource h1
    have e2 := validateKebabCase_err "verb" role.verb h2
    simp only [extractRoleOptions, e1, e2]
  · intro mn role pre bad post h1 h2 hs hpre hbad
    have e1 := validateKebabCase_ok "resource" role.resource h1
    have e2 := validateKebabCase_ok "verb" role.verb h2
    have e3 : validateScopes mn role.scope 0 =
        .error ("invalid role in method " ++ mn ++ ": " ++
          ("field '" ++ ("scope[" ++ toString (0 + pre.length) ++ "]") ++
            "' with value '" ++ bad ++ "' is not in kebab-case format")) := by
      rw [hs]
      exact validateScopes_err mn pre bad post 0 hpre hbad
    simp only [extractRoleOptions, e1, e2, e3, Nat.zero_add]

theorem extractRoleOptions_spec_witness :
    extractRoleOptions "GetThing" none = .ok none ∧
    extractRoleOptions "GetThing" (some ⟨"things", ["read-only"], "get"⟩) =
      .ok (some ⟨"things", ["read-only"], "get"⟩) ∧
    extractRoleOptions "GetThing" (some ⟨"things", ["ok-scope", "Bad"], "get"⟩) =
      .error ("invalid role in method GetThing: field 'scope[1]' with value" ++
        " 'Bad' is not in kebab-case format") := by
  refine ⟨extractRoleOptions_spec.1 "GetThing", ?_, ?_⟩
  · exact extractRoleOptions_spec.2.1 "GetThing" ⟨"things", ["read-only"], "get"⟩
      (by decide) (by decide) (by decide)
  · have h := extractRoleOptions_spec.2.2.2.2 "GetThing"
      ⟨"things", ["ok-scope", "Bad"], "get"⟩ ["ok-scope"] "Bad" []
      (by decide) (by decide) rfl (by decide) (by decide)
    rw [h]
    rfl

theorem mem_mapInsert (m : List String) (k n : String) :
    n ∈ mapInsert m k ↔ n ∈ m ∨ n = k := by
  unfold mapInsert
  by_cases h : k ∈ m
  · rw [if_pos h]
    constructor
    · exact Or.inl
    · rintro (hn | rfl)
      · exact hn
      · exact h
  · rw [if_neg h]
    simp

theorem mem_mapDelete (m : List String) (k n : String) :
    n ∈ mapDelete m k ↔ n ∈ m ∧ n ≠ k := by
  simp [mapDelete]

theorem mem_foldl_insert (l : List Field) (acc : List String) (n : String) :
    n ∈ l.foldl (fun m f => mapInsert m f.name) acc ↔
      n ∈ acc ∨ n ∈ l.map Field.name := by
  induction l generalizing acc with
  | nil => simp
  | cons f l ih =>
    rw [List.foldl_cons, ih, mem_mapInsert]
    simp only [List.map_cons, List.mem_cons]
    tauto

theorem mem_foldl_delete (ps : List Parameter) (acc : List String) (n : String) :
    n ∈ ps.foldl (fun m p => mapDelete m (fieldPathString p.fieldPath)) acc ↔
      n ∈ acc ∧ ∀ p ∈ ps, n ≠ fieldPathString p.fieldPath := by
  induction ps generalizing acc with
  | nil => simp
  | cons p ps ih =>
    rw [List.foldl_cons, ih, mem_mapDelete]
    simp only [List.mem_cons]
    constructor
    · rintro ⟨⟨h1, h2⟩, h3⟩
      exact ⟨h1, fun q hq => by rcases hq with rfl | hq; exact h2; exact h3 q hq⟩
    · rintro ⟨h1, h2⟩
      exact ⟨⟨h1, h2 p (Or.inl rfl)⟩, fun q hq => h2 q (Or.inr hq)⟩

theorem mem_remainingFields (b : Binding) (n : String) :
    n ∈ remainingFields b ↔
      n ∈ b.requestType.fields.map Field.name ∧
      (∀ bd, b.body = some bd → n ≠ fieldPathString bd.fieldPath) ∧
      (∀ p ∈ b.pathParams, n ≠ fieldPathString p.fieldPath) := by
  unfold remainingFields
  cases hbody : b.body with
  | none =>
    rw [mem_foldl_delete, mem_foldl_insert]
    simp [hbody]
  | some bd =>
    rw [mem_foldl_delete, mem_mapDelete, mem_foldl_insert]
    simp only [hbody, List.not_mem_nil, false_or, Option.some.injEq]
    constructor
    · rintro ⟨⟨h1, h2⟩, h3⟩
      exact ⟨h1, fun bd2 hbd2 => by rw [← hbd2]; exact h2, h3⟩
    · rintro ⟨h1, h2, h3⟩
      exact ⟨⟨h1, h2 bd rfl⟩, h3⟩

/-- The query-parameter list exactly as claim C2 states it: the request
message's direct field names, minus the field named by the body's field path
(when the body has a non-empty field path), minus every path parameter's
field path, in declaration order. -/
def claimedQueryParams (b : Binding) : List String :=
  let removed : List String :=
    (match b.body with
      | some bd =>
        if bd.fieldPath.isEmpty then [] else [fieldPathString bd.fieldPath]
      | none => []) ++
    b.pathParams.map (fun p => fieldPathString p.fieldPath)
  (b.requestType.fields.map Field.name).filter (fun n => ¬ n ∈ removed)

/-- C2 (counterexample): for a first binding whose body denotes the whole
request message (empty body field path), `getQueryParams` returns the empty
list, not the claim's formula (which only subtracts a body field when the
body path is non-empty, and so keeps `id` and `name` here). -/
theorem getQueryParams_claim_counterexample :
    getQueryParams
        ⟨"UpdateThing",
          ⟨"UpdateReq", [⟨"id", .scalar, "", false⟩, ⟨"name", .scalar, "", false⟩]⟩,
          ⟨"Resp", []⟩, false, none,
          [some ⟨"POST", ⟨"/v1/things", [], ""⟩, 0, [], some ⟨[]⟩, none,
            ⟨"UpdateReq", [⟨"id", .scalar, "", false⟩, ⟨"name", .scalar, "", false⟩]⟩⟩]⟩ =
      [] ∧
    claimedQueryParams
        ⟨"POST", ⟨"/v1/things", [], ""⟩, 0, [], some ⟨[]⟩, none,
          ⟨"UpdateReq", [⟨"id", .scalar, "", false⟩, ⟨"name", .scalar, "", false⟩]⟩⟩ =
      ["id", "name"] := by
  constructor
  · rfl
  · rfl

/-- C2 (amended): for a method whose first binding is `b`, `getQueryParams`
returns the empty list when `b`'s body denotes the whole request message
(empty body field path); otherwise it returns exactly the claim's list — the
request message's direct field names minus the field named by `b`'s non-empty
body field path and minus every path parameter's field path, in declaration
order. -/
theorem getQueryParams_spec (m : Method) (b : Binding)
    (hb : m.bindings.head? = some (some b)) :
    getQueryParams m =
      if bodyIsWholeMessage b then [] else claimedQueryParams b := by
  cases hm : m.bindings with
  | nil => rw [hm] at hb; exact absurd hb (by simp)
  | cons hd tl =>
    rw [hm] at hb
    simp only [List.head?_cons, Option.some.injEq] at hb
    subst hb
    simp only [getQueryParams, hm]
    by_cases hw : bodyIsWholeMessage b
    · rw [if_pos hw, if_pos hw]
    · rw [if_neg hw, if_neg hw]
      cases hbody : b.body with
      | none =>
        have hclaim : claimedQueryParams b =
            (b.requestType.fields.map Field.name).filter (fun n =>
              ¬ n ∈ b.pathParams.map (fun p => fieldPathString p.fieldPath)) := by
          unfold claimedQueryParams
          rw [hbody]
          simp
        rw [hclaim]
        apply List.filter_congr
        intro n hn
        simp only [decide_eq_decide]
        rw [mem_remainingFields]
        simp only [hn, true_and, hbody, List.mem_map, not_exists, not_and]
        constructor
        · rintro ⟨_h2, h3⟩ p hp heq
          exact h3 p hp heq.symm
        · intro h
          constructor
          · rintro bd hbd
            cases hbd
          · intro p hp heq
            exact h p hp heq.symm
      | some bd =>
        have hne : bd.fieldPath.isEmpty = false := by
          unfold bodyIsWholeMessage at hw
          rw [hbody] at hw
          rcases hfp : bd.fieldPath with _ | ⟨x, xs⟩
          · exfalso
            apply hw
            simp [hfp]
          · simp [hfp]
        have hclaim : claimedQueryParams b =
            (b.requestType.fields.map Field.name).filter (fun n =>
              ¬ (n = fieldPathString bd.fieldPath ∨
                n ∈ b.pathParams.map (fun p => fieldPathString p.fieldPath))) := by
          unfold claimedQueryParams
          rw [hbody]
          simp [hne]
        rw [hclaim]
        apply List.filter_congr
        intro n hn
        simp only [decide_eq_decide]
        rw [mem_remainingFields]
        simp only [hn, true_and, hbody, List.mem_map, not_exists, not_and,
          not_or, Option.some.injEq]
        constructor
        · rintro ⟨h2, h3⟩
          refine ⟨h2 bd rfl, ?_⟩
          intro p hp heq
          exact h3 p hp heq.symm
        · rintro ⟨h1, h2⟩
          constructor
          · rintro bd2 hbd2
            rw [← hbd2]
            exact h1
          · intro p hp heq
            exact h2 p hp heq.symm

theorem getQueryParams_spec_witness :
    getQueryParams
        ⟨"GetThing",
          ⟨"GetReq", [⟨"id", .scalar, "", false⟩, ⟨"name", .scalar, "", false⟩,
            ⟨"filter", .scalar, "", false⟩]⟩,
          ⟨"Resp", []⟩, false, none,
          [some ⟨"GET", ⟨"/v1/things/{id}", ["id"], ""⟩, 0,
            [⟨[⟨"id", ⟨"id", .scalar, "", false⟩⟩], ⟨"id", .scalar, "", false⟩⟩],
            none, none,
            ⟨"GetReq", [⟨"id", .scalar, "", false⟩, ⟨"name", .scalar, "", false⟩,
              ⟨"filter", .scalar, "", false⟩]⟩⟩]⟩ = ["name", "filter"] := by
  have h := getQueryParams_spec
    ⟨"GetThing",
      ⟨"GetReq", [⟨"id", .scalar, "", false⟩, ⟨"name", .scalar, "", false⟩,
        ⟨"filter", .scalar, "", false⟩]⟩,
      ⟨"Resp", []⟩, false, none,
      [some ⟨"GET", ⟨"/v1/things/{id}", ["id"], ""⟩, 0,
        [⟨[⟨"id", ⟨"id", .scalar, "", false⟩⟩], ⟨"id", .scalar, "", false⟩⟩],
        none, none,
        ⟨"GetReq", [⟨"id", .scalar, "", false⟩, ⟨"name", .scalar, "", false⟩,
          ⟨"filter", .scalar, "", false⟩]⟩⟩]⟩
    ⟨"GET", ⟨"/v1/things/{id}", ["id"], ""⟩, 0,
      [⟨[⟨"id", ⟨"id", .scalar, "", false⟩⟩], ⟨"id", .scalar, "", false⟩⟩],
      none, none,
      ⟨"GetReq", [⟨"id", .scalar, "", false⟩, ⟨"name", .scalar, "", false⟩,
        ⟨"filter", .scalar, "", false⟩]⟩⟩
    rfl
  rw [h]
  rfl

/-- C10: for a method whose first binding is `b`, the three query-parameter
computations agree: `HasQueryParam b` is true iff `hasQueryParams m` is true,
iff `getQueryParams m` is non-empty. -/
theorem queryParams_agreement (m : Method) (b : Binding)
    (hb : m.bindings.head? = some (some b)) :
    (HasQueryParam b = true ↔ hasQueryParams m = true) ∧
    (hasQueryParams m = true ↔ getQueryParams m ≠ []) := by
  cases hm : m.bindings with
  | nil => rw [hm] at hb; exact absurd hb (by simp)
  | cons hd tl =>
    rw [hm] at hb
    simp only [List.head?_cons, Option.some.injEq] at hb
    subst hb
    simp only [HasQueryParam, hasQueryParams, getQueryParams, hm]
    by_cases hw : bodyIsWholeMessage b
    · simp [hw]
    · simp only [hw, if_false, Bool.false_eq_true]
      constructor
      · rw [decide_eq_true_eq, List.any_eq_true]
        constructor
        · intro hlen
          have hne : remainingFields b ≠ [] := by
            intro hcon
            rw [hcon] at hlen
            simp at hlen
          obtain ⟨n, hn⟩ := List.exists_mem_of_ne_nil _ hne
          have hmem := (mem_remainingFields b n).1 hn
          obtain ⟨f, hf, rfl⟩ := List.mem_map.1 hmem.1
          exact ⟨f, hf, by simp [hn]⟩
        · rintro ⟨f, hf, hp⟩
          simp only [decide_eq_true_eq] at hp
          have hne : remainingFields b ≠ [] := by
            intro hcon
            rw [hcon] at hp
            simp at hp
          exact List.length_pos.2 hne
      · rw [List.any_eq_true]
        constructor
        · rintro ⟨f, hf, hp⟩
          simp only [decide_eq_true_eq] at hp
          intro hcon
          have hmem : f.name ∈ (b.requestType.fields.map Field.name).filter
              (fun n => decide (n ∈ remainingFields b)) := by
            rw [List.mem_filter]
            exact ⟨List.mem_map_of_mem _ hf, by simp [hp]⟩
          rw [hcon] at hmem
          simp at hmem
        · intro hne
          obtain ⟨n, hn⟩ := List.exists_mem_of_ne_nil _ hne
          rw [List.mem_filter] at hn
          obtain ⟨f, hf, rfl⟩ := List.mem_map.1 hn.1
          refine ⟨f, hf, hn.2⟩

theorem queryParams_agreement_witness :
    (HasQueryParam
        ⟨"GET", ⟨"/v1/things", [], ""⟩, 0, [], none, none,
          ⟨"GetReq", [⟨"id", .scalar, "", false⟩]⟩⟩ = true ↔
      hasQueryParams
        ⟨"GetThing", ⟨"GetReq", [⟨"id", .scalar, "", false⟩]⟩, ⟨"Resp", []⟩,
          false, none,
          [some ⟨"GET", ⟨"/v1/things", [], ""⟩, 0, [], none, none,
            ⟨"GetReq", [⟨"id", .scalar, "", false⟩]⟩⟩]⟩ = true) ∧
    (hasQueryParams
        ⟨"GetThing", ⟨"GetReq", [⟨"id", .scalar, "", false⟩]⟩, ⟨"Resp", []⟩,
          false, none,
          [some ⟨"GET", ⟨"/v1/things", [], ""⟩, 0, [], none, none,
            ⟨"GetReq", [⟨"id", .scalar, "", false⟩]⟩⟩]⟩ = true ↔
      getQueryParams
        ⟨"GetThing", ⟨"GetReq", [⟨"id", .scalar, "", false⟩]⟩, ⟨"Resp", []⟩,
          false, none,
          [some ⟨"GET", ⟨"/v1/things", [], ""⟩, 0, [], none, none,
            ⟨"GetReq", [⟨"id", .scalar, "", false⟩]⟩⟩]⟩ ≠ []) :=
  queryParams_agreement
    ⟨"GetThing", ⟨"GetReq", [⟨"id", .scalar, "", false⟩]⟩, ⟨"Resp", []⟩,
      false, none,
      [some ⟨"GET", ⟨"/v1/things", [], ""⟩, 0, [], none, none,
        ⟨"GetReq", [⟨"id", .scalar, "", false⟩]⟩⟩]⟩
    ⟨"GET", ⟨"/v1/things", [], ""⟩, 0, [], none, none,
      ⟨"GetReq", [⟨"id", .scalar, "", false⟩]⟩⟩
    rfl

theorem splitPath_abc : splitPath "a.b.c" = ["a", "b", "c"] := by decide

/-- C5: resolving the dotted path `a.b.c` against message `M` returns the
ordered chain — `M`'s field `a`, then field `b` of `a`'s message type, then
field `c` of `b`'s message type; a component missing at any step fails with
an error naming the full original path and the root message `M`. -/
theorem resolveFieldPath_chain :
    (∀ (r : Registry) (M B C : Message) (fa fb fc : Field) (ipp : Bool),
      lookupField M "a" = some fa → fa.typ = .message →
      r.lookupMsg fa.typeName = .ok B →
      lookupField B "b" = some fb → fb.typ = .message →
      r.lookupMsg fb.typeName = .ok C →
      lookupField C "c" = some fc →
      fa.proto3Optional = false → fb.proto3Optional = false →
      fc.proto3Optional = false →
      resolveFieldPath r M "a.b.c" ipp =
        .ok [⟨"a", fa⟩, ⟨"b", fb⟩, ⟨"c", fc⟩]) ∧
    (∀ (r : Registry) (M : Message) (ipp : Bool),
      lookupField M "a" = none →
      resolveFieldPath r M "a.b.c" ipp =
        .error ("no field \"" ++ "a.b.c" ++ "\" found in " ++ M.name)) ∧
    (∀ (r : Registry) (M B : Message) (fa : Field) (ipp : Bool),
      lookupField M "a" = some fa → fa.typ = .message →
      r.lookupMsg fa.typeName = .ok B →
      fa.proto3Optional = false →
      lookupField B "b" = none →
      resolveFieldPath r M "a.b.c" ipp =
        .error ("no field \"" ++ "a.b.c" ++ "\" found in " ++ M.name)) := by
  refine ⟨?_, ?_, ?_⟩
  · intro r M B C fa fb fc ipp h1 h1t h1m h2 h2t h2m h3 o1 o2 o3
    rw [resolveFieldPath, if_neg (by decide), splitPath_abc]
    simp [resolveFieldPathLoop, h1, h1t, h1m, h2, h2t, h2m, h3, o1, o2, o3]
  · intro r M ipp h1
    rw [resolveFieldPath, if_neg (by decide), splitPath_abc]
    simp [resolveFieldPathLoop, h1]
  · intro r M B fa ipp h1 h1t h1m o1 h2
    rw [resolveFieldPath, if_neg (by decide), splitPath_abc]
    simp [resolveFieldPathLoop, h1, h1t, h1m, o1, h2]

theorem resolveFieldPath_chain_witness :
    resolveFieldPath
        ⟨[("pkg.B", ⟨"B", [⟨"b", .message, "pkg.C", false⟩]⟩),
          ("pkg.C", ⟨"C", [⟨"c", .scalar, "", false⟩]⟩)], false, false⟩
        ⟨"A", [⟨"a", .message, "pkg.B", false⟩]⟩ "a.b.c" true =
      .ok [⟨"a", ⟨"a", .message, "pkg.B", false⟩⟩,
        ⟨"b", ⟨"b", .message, "pkg.C", false⟩⟩,
        ⟨"c", ⟨"c", .scalar, "", false⟩⟩] ∧
    resolveFieldPath
        ⟨[("pkg.B", ⟨"B", [⟨"b", .message, "pkg.C", false⟩]⟩),
          ("pkg.C", ⟨"C", [⟨"c", .scalar, "", false⟩]⟩)], false, false⟩
        ⟨"A", [⟨"z", .scalar, "", false⟩]⟩ "a.b.c" true =
      .error ("no field \"" ++ "a.b.c" ++ "\" found in " ++ "A") := by
  constructor
  · exact resolveFieldPath_chain.1
      ⟨[("pkg.B", ⟨"B", [⟨"b", .message, "pkg.C", false⟩]⟩),
        ("pkg.C", ⟨"C", [⟨"c", .scalar, "", false⟩]⟩)], false, false⟩
      ⟨"A", [⟨"a", .message, "pkg.B", false⟩]⟩
      ⟨"B", [⟨"b", .message, "pkg.C", false⟩]⟩
      ⟨"C", [⟨"c", .scalar, "", false⟩]⟩
      ⟨"a", .message, "pkg.B", false⟩ ⟨"b", .message, "pkg.C", false⟩
      ⟨"c", .scalar, "", false⟩ true
      rfl rfl rfl rfl rfl rfl rfl rfl rfl rfl
  · exact resolveFieldPath_chain.2.1
      ⟨[("pkg.B", ⟨"B", [⟨"b", .message, "pkg.C", false⟩]⟩),
        ("pkg.C", ⟨"C", [⟨"c", .scalar, "", false⟩]⟩)], false, false⟩
      ⟨"A", [⟨"z", .scalar, "", false⟩]⟩ true rfl

theorem splitDots_no_dot (cs : List Char) (h : ∀ c ∈ cs, c ≠ '.') :
    splitDots cs = [cs] := by
  induction cs with
  | nil => rfl
  | cons c rest ih =>
    rw [splitDots, if_neg (h c (by simp)), ih (fun x hx => h x (by simp [hx]))]

theorem splitPath_single (name : String) (h : ∀ c ∈ name.data, c ≠ '.') :
    splitPath name = [name] := by
  rw [splitPath, splitDots_no_dot name.data h]
  rfl

theorem resolveLoop_nonOptional (r : Registry) (root : Message) (path : String)
    (comps : List String) :
    ∀ (msg : Message) (prev : Option Field) (acc res : List FieldPathComponent),
      (∀ x ∈ acc, x.target.proto3Optional = false) →
      resolveFieldPathLoop r root path true msg prev comps acc = .ok res →
      ∀ x ∈ res, x.target.proto3Optional = false := by
  induction comps with
  | nil =>
    intro msg prev acc res hacc h
    simp only [resolveFieldPathLoop, Except.ok.injEq] at h
    subst h
    exact hacc
  | cons c rest ih =>
    intro msg prev acc res hacc h
    simp only [resolveFieldPathLoop] at h
    split at h
    · exact absurd h (by simp)
    · split at h
      · exact absurd h (by simp)
      · rename_i f hf
        split at h
        · exact absurd h (by simp)
        · rename_i hcond
          have hopt : f.proto3Optional = false := by
            cases hb : f.proto3Optional with
            | false => rfl
            | true => exact absurd ⟨trivial, hb⟩ hcond
          refine ih _ _ _ _ ?_ h
          intro x hx
          rcases List.mem_append.1 hx with hx | hx
          · exact hacc x hx
          · simp only [List.mem_singleton] at hx
            subst hx
            exact hopt

/-- C6: every constructed path `Parameter` has a non-optional terminal field
whose type, when aggregate, is a recognized well-known type; construction
fails for an optional terminal field and for a message-typed terminal field
that is not well-known, and succeeds for a well-known-typed one. -/
theorem newParam_invariant :
    (∀ (r : Registry) (m : MethodInfo) (path : String) (p : Parameter),
      newParam r m path = .ok p →
      p.target.proto3Optional = false ∧
      ((p.target.typ = .message ∨ p.target.typ = .group) →
        isWellKnownType p.target.typeName = true)) ∧
    (∀ (r : Registry) (m : MethodInfo) (name : String) (f : Field),
      lookupField m.requestType name = some f →
      name ≠ "" → (∀ c ∈ name.data, c ≠ '.') →
      f.proto3Optional = true →
      newParam r m name =
        .error ("optional field not allowed in field path: " ++ f.name ++
          " in " ++ name)) ∧
    (∀ (r : Registry) (m : MethodInfo) (name : String) (f : Field),
      lookupField m.requestType name = some f →
      name ≠ "" → (∀ c ∈ name.data, c ≠ '.') →
      f.proto3Optional = false → f.typ = .message →
      isWellKnownType f.typeName = false →
      newParam r m name =
        .error (m.serviceName ++ "." ++ m.name ++ ": " ++ name ++
          " is a protobuf message type. Protobuf message types cannot" ++
          " be used as path parameters, use a scalar value type (such" ++
          " as string) instead")) ∧
    (∀ (r : Registry) (m : MethodInfo) (name : String) (f : Field),
      lookupField m.requestType name = some f →
      name ≠ "" → (∀ c ∈ name.data, c ≠ '.') →
      f.proto3Optional = false → f.typ = .message →
      isWellKnownType f.typeName = true →
      newParam r m name = .ok ⟨[⟨name, f⟩], f⟩) := by
  refine ⟨?_, ?_, ?_, ?_⟩
  · intro r m path p h
    unfold newParam at h
    split at h
    · exact absurd h (by simp)
    · rename_i fields hres
      split at h
      · exact absurd h (by simp)
      · rename_i last hlast
        have hmem : last ∈ fields := by
          obtain ⟨hne, heq⟩ := List.mem_getLast?_eq_getLast hlast
          rw [heq]
          exact List.getLast_mem hne
        have hfields_nonopt : ∀ x ∈ fields, x.target.proto3Optional = false := by
          unfold resolveFieldPath at hres
          split at hres
          · simp only [Except.ok.injEq] at hres
            subst hres
            intro x hx
            exact absurd hx (by simp)
          · exact resolveLoop_nonOptional r m.requestType path _ _ _ _ _
              (by intro x hx; exact absurd hx (by simp)) hres
        split at h
        · exact absurd h (by simp)
        · rename_i u hchk
          simp only [Except.ok.injEq] at h
          subst h
          refine ⟨hfields_nonopt last hmem, ?_⟩
          intro htyp
          unfold paramTypeCheck at hchk
          rcases htyp with htyp | htyp <;> (
            rw [htyp] at hchk
            dsimp only at hchk
            split at hchk
            · rename_i hwk
              exact hwk
            · exact absurd hchk (by simp))
  · intro r m name f hf hne hnd hopt
    unfold newParam
    rw [resolveFieldPath, if_neg hne, splitPath_single name hnd]
    simp [resolveFieldPathLoop, hf, hopt]
  · intro r m name f hf hne hnd hopt htyp hwk
    unfold newParam
    rw [resolveFieldPath, if_neg hne, splitPath_single name hnd]
    simp [resolveFieldPathLoop, paramTypeCheck, hf, hopt, htyp, hwk]
  · intro r m name f hf hne hnd hopt htyp hwk
    unfold newParam
    rw [resolveFieldPath, if_neg hne, splitPath_single name hnd]
    simp [resolveFieldPathLoop, paramTypeCheck, hf, hopt, htyp, hwk]

theorem newParam_invariant_witness :
    newParam ⟨[], false, false⟩
        ⟨"Svc", "GetThing", false,
          ⟨"Req", [⟨"opt", .scalar, "", true⟩]⟩, ⟨"Resp", []⟩⟩ "opt" =
      .error ("optional field not allowed in field path: " ++ "opt" ++
        " in " ++ "opt") ∧
    newParam ⟨[], false, false⟩
        ⟨"Svc", "GetThing", false,
          ⟨"Req", [⟨"msg", .message, "pkg.Inner", false⟩]⟩, ⟨"Resp", []⟩⟩ "msg" =
      .error ("Svc" ++ "." ++ "GetThing" ++ ": " ++ "msg" ++
        " is a protobuf message type. Protobuf message types cannot" ++
        " be used as path parameters, use a scalar value type (such" ++
        " as string) instead") ∧
    newParam ⟨[], false, false⟩
        ⟨"Svc", "GetThing", false,
          ⟨"Req", [⟨"ts", .message, ".google.protobuf.Timestamp", false⟩]⟩,
          ⟨"Resp", []⟩⟩ "ts" =
      .ok ⟨[⟨"ts", ⟨"ts", .message, ".google.protobuf.Timestamp", false⟩⟩],
        ⟨"ts", .message, ".google.protobuf.Timestamp", false⟩⟩ := by
  refine ⟨?_, ?_, ?_⟩
  · exact newParam_invariant.2.1 ⟨[], false, false⟩
      ⟨"Svc", "GetThing", false, ⟨"Req", [⟨"opt", .scalar, "", true⟩]⟩,
        ⟨"Resp", []⟩⟩ "opt" ⟨"opt", .scalar, "", true⟩
      rfl (by decide) (by decide) rfl
  · exact newParam_invariant.2.2.1 ⟨[], false, false⟩
      ⟨"Svc", "GetThing", false,
        ⟨"Req", [⟨"msg", .message, "pkg.Inner", false⟩]⟩, ⟨"Resp", []⟩⟩
      "msg" ⟨"msg", .message, "pkg.Inner", false⟩
      rfl (by decide) (by decide) rfl rfl (by decide)
  · exact newParam_invariant.2.2.2 ⟨[], false, false⟩
      ⟨"Svc", "GetThing", false,
        ⟨"Req", [⟨"ts", .message, ".google.protobuf.Timestamp", false⟩]⟩,
        ⟨"Resp", []⟩⟩
      "ts" ⟨"ts", .message, ".google.protobuf.Timestamp", false⟩
      rfl (by decide) (by decide) rfl rfl (by decide)

/-- A character that may appear in a proto fully-qualified name or method
name: letters, digits, underscore, and the dot separating name components. -/
def fqsnChar (c : Char) : Bool :=
  c.isAlpha || c.isDigit || c = '_' || c = '.'

theorem fqsnChar_not_special (c : Char) (h : fqsnChar c = true) :
    c ≠ '/' ∧ c ≠ '{' ∧ c ≠ '}' ∧ c ≠ ':' ∧ c ≠ '*' := by
  refine ⟨?_, ?_, ?_, ?_, ?_⟩ <;> (intro heq; subst heq; exact absurd h (by decide))

theorem splitSegsAux_skip (A : List Char) (rest cur : List Char)
    (h : ∀ c ∈ A, fqsnChar c = true) :
    splitSegsAux (A ++ rest) cur 0 = splitSegsAux rest (cur ++ A) 0 := by
  induction A generalizing cur with
  | nil => simp
  | cons a A ih =>
    have ha := fqsnChar_not_special a (h a (by simp))
    rw [List.cons_append]
    simp only [splitSegsAux]
    rw [if_neg (fun hc => ha.1 hc.1), if_neg ha.2.1, if_neg ha.2.2.1,
      ih _ (fun x hx => h x (by simp [hx]))]
    simp

theorem splitVerbAux_no_colon (B : List Char) (cur : List Char)
    (h : ∀ c ∈ B, fqsnChar c = true) :
    splitVerbAux B cur 0 = (cur ++ B, none) := by
  induction B generalizing cur with
  | nil => simp [splitVerbAux]
  | cons b B ih =>
    have hb := fqsnChar_not_special b (h b (by simp))
    simp only [splitVerbAux]
    rw [if_neg (fun hc => hb.2.2.2.1 hc.1), if_neg hb.2.1, if_neg hb.2.2.1,
      ih _ (fun x hx => h x (by simp [hx]))]
    simp

theorem parseSeg_literal (A : List Char) (hne : A ≠ [])
    (h : ∀ c ∈ A, fqsnChar c = true) :
    parseSeg A = .ok (.literal A) := by
  cases A with
  | nil => exact absurd rfl hne
  | cons a A =>
    have ha := fqsnChar_not_special a (h a (by simp))
    have hstar : ∀ (l : List Char), a :: A ≠ '*' :: l := by
      intro l hc
      injection hc with h1 _
      exact ha.2.2.2.2 h1
    have hany : ((a :: A).any (fun x => x = '{' || x = '}')) = false := by
      rw [List.any_eq_false]
      intro x hx
      have hx' := fqsnChar_not_special x (h x hx)
      simp [hx'.2.1, hx'.2.2.1]
    simp only [parseSeg]
    rw [if_neg (hstar ['*']), if_neg (hstar []), if_neg ha.2.1,
      if_neg (by simp [hany])]

theorem parseTemplate_two_literals (a b : String)
    (hane : a.data ≠ []) (ha : ∀ c ∈ a.data, fqsnChar c = true)
    (hbne : b.data ≠ []) (hb : ∀ c ∈ b.data, fqsnChar c = true) :
    parseTemplate ("/" ++ a ++ "/" ++ b) =
      .ok ⟨"/" ++ a ++ "/" ++ b, [], ""⟩ := by
  have hdata : ("/" ++ a ++ "/" ++ b).data =
      '/' :: (a.data ++ '/' :: b.data) := by
    simp [String.data_append]
  have hb2 : splitSegsAux b.data [] 0 = .ok [b.data] := by
    conv_lhs => rw [show b.data = b.data ++ [] from (List.append_nil _).symm]
    rw [splitSegsAux_skip b.data [] [] hb]
    simp [splitSegsAux]
  have hsplit : splitSegsAux (a.data ++ '/' :: b.data) [] 0 =
      .ok [a.data, b.data] := by
    rw [splitSegsAux_skip a.data _ [] ha]
    simp [splitSegsAux, hb2]
  have hverb : extractVerb [a.data, b.data] = ([a.data, b.data], "") := by
    unfold extractVerb
    rw [show ([a.data, b.data].getLast?) = some b.data by simp]
    simp [splitVerbAux_no_colon b.data [] hb]
  have hsegs : parseSegs [a.data, b.data] =
      .ok [.literal a.data, .literal b.data] := by
    simp only [parseSegs, parseSeg_literal a.data hane ha,
      parseSeg_literal b.data hbne hb]
  unfold parseTemplate
  rw [hdata]
  simp [hsplit, hverb, hsegs, deepWildLast, capturedPaths]

/-- C1: a method with no external override and no inline HTTP rule, under
default-generation, resolves to exactly one binding — verb POST, path
template `/<service-fqn>/<method>`, body the whole request message (the `*`
rule, i.e. an empty body field path). -/
theorem default_binding_resolution (r : Registry) (svcFqsn : String)
    (m : MethodInfo) (role : Option Role)
    (hgen : r.generateUnboundMethods = true)
    (hsne : (trimLeadingDot svcFqsn).data ≠ [])
    (hs : ∀ c ∈ (trimLeadingDot svcFqsn).data, fqsnChar c = true)
    (hmne : m.name.data ≠ [])
    (hmn : ∀ c ∈ m.name.data, fqsnChar c = true) :
    newMethod r m (methodOptsList r svcFqsn m [] none) role =
      .ok { name := m.name
            requestType := m.requestType
            responseType := m.responseType
            clientStreaming := m.clientStreaming
            role := role
            bindings := [some {
              httpMethod := "POST"
              pathTmpl := ⟨"/" ++ trimLeadingDot svcFqsn ++ "/" ++ m.name, [], ""⟩
              index := 0
              pathParams := []
              body := some ⟨[]⟩
              responseBody := none
              requestType := m.requestType }] } := by
  have hopts : methodOptsList r svcFqsn m [] none =
      [defaultAPIOptions svcFqsn m.name] := by
    simp [methodOptsList, hgen]
  have hdata : ("/" ++ trimLeadingDot svcFqsn ++ "/" ++ m.name).data =
      '/' :: ((trimLeadingDot svcFqsn).data ++ '/' :: m.name.data) := by
    simp [String.data_append]
  have hpne : ("/" ++ trimLeadingDot svcFqsn ++ "/" ++ m.name) ≠ "" := by
    intro hc
    rw [hc] at hdata
    exact absurd hdata (by simp)
  have hparse := parseTemplate_two_literals (trimLeadingDot svcFqsn) m.name
    hsne hs hmne hmn
  have hcore : ∀ idx : Nat,
      bindCore r m "POST" ("/" ++ trimLeadingDot svcFqsn ++ "/" ++ m.name)
        (defaultAPIOptions svcFqsn m.name) idx =
      .ok (some { httpMethod := "POST"
                  pathTmpl := ⟨"/" ++ trimLeadingDot svcFqsn ++ "/" ++ m.name,
                    [], ""⟩
                  index := idx
                  pathParams := []
                  body := some ⟨[]⟩
                  responseBody := none
                  requestType := m.requestType }) := by
    intro idx
    unfold bindCore
    rw [hparse]
    simp [newBody, newResponse, defaultAPIOptions, HttpRule.body,
      HttpRule.responseBody, List.mapM, List.mapM.loop, pure, Except.pure]
  have hbind : ∀ idx : Nat,
      newBinding r m (defaultAPIOptions svcFqsn m.name) idx =
      .ok (some { httpMethod := "POST"
                  pathTmpl := ⟨"/" ++ trimLeadingDot svcFqsn ++ "/" ++ m.name,
                    [], ""⟩
                  index := idx
                  pathParams := []
                  body := some ⟨[]⟩
                  responseBody := none
                  requestType := m.requestType }) := by
    intro idx
    unfold newBinding
    rw [show (defaultAPIOptions svcFqsn m.name).getGet = "" from rfl,
      show (defaultAPIOptions svcFqsn m.name).getPut = "" from rfl,
      show (defaultAPIOptions svcFqsn m.name).getPost =
        ("/" ++ trimLeadingDot svcFqsn ++ "/" ++ m.name) from rfl]
    rw [if_neg (by simp), if_neg (by simp), if_pos hpne]
    exact hcore idx
  have happly : applyOptsRule r m (defaultAPIOptions svcFqsn m.name) [] =
      .ok [some { httpMethod := "POST"
                  pathTmpl := ⟨"/" ++ trimLeadingDot svcFqsn ++ "/" ++ m.name,
                    [], ""⟩
                  index := 0
                  pathParams := []
                  body := some ⟨[]⟩
                  responseBody := none
                  requestType := m.requestType }] := by
    unfold applyOptsRule
    rw [show (List.length ([] : List (Option Binding))) = 0 from rfl, hbind 0]
    rw [show (defaultAPIOptions svcFqsn m.name).additionalBindings = []
      from rfl]
    simp [applyAdditional]
  rw [hopts]
  unfold newMethod
  unfold applyOptsList
  rw [happly]
  rfl

theorem default_binding_resolution_witness :
    newMethod ⟨[], false, true⟩
        ⟨"ExampleService", "GetThing", false,
          ⟨"GetReq", [⟨"id", .scalar, "", false⟩]⟩, ⟨"GetResp", []⟩⟩
        (methodOptsList ⟨[], false, true⟩ ".example.ExampleService"
          ⟨"ExampleService", "GetThing", false,
            ⟨"GetReq", [⟨"id", .scalar, "", false⟩]⟩, ⟨"GetResp", []⟩⟩ [] none)
        none =
      .ok { name := "GetThing"
            requestType := ⟨"GetReq", [⟨"id", .scalar, "", false⟩]⟩
            responseType := ⟨"GetResp", []⟩
            clientStreaming := false
            role := none
            bindings := [some {
              httpMethod := "POST"
              pathTmpl := ⟨"/" ++ trimLeadingDot ".example.ExampleService" ++
                "/" ++ "GetThing", [], ""⟩
              index := 0
              pathParams := []
              body := some ⟨[]⟩
              responseBody := none
              requestType := ⟨"GetReq", [⟨"id", .scalar, "", false⟩]⟩ }] } :=
  default_binding_resolution ⟨[], false, true⟩ ".example.ExampleService"
    ⟨"ExampleService", "GetThing", false,
      ⟨"GetReq", [⟨"id", .scalar, "", false⟩]⟩, ⟨"GetResp", []⟩⟩
    none rfl (by decide) (by decide) (by decide) (by decide)

end GrpcCore
